import Mathlib

/-!
# Verification of the lazy-mcp hierarchical MCP router core

A shallow embedding, in Lean 4, of the core of the `lazy-mcp` repository:

* the hierarchy store and its operations (`ResolveToolPath`,
  `HandleGetToolsInCategory`, `loadNode`) from
  `internal/hierarchy/hierarchy.go`;
* the lazy server registry (`GetOrLoadServer`) from the same file;
* the `execute_tool` dispatcher (`HandleExecuteTool` and the HTTP handler's
  argument parsing from `internal/server/server.go`).

Go maps are embedded as association lists (`List (key × value)`) with
first-match lookup; Go map keys are unique, so first-match lookup agrees with
Go map lookup on every store a Go program can build.  Go's `strings.Split`,
`strings.Join`, `strings.Trim`, `strings.HasPrefix` and `strings.TrimPrefix`
are embedded character-by-character over `String.data`, matching the Go
semantics for the single-character separators used by the source.  Fallible
Go functions returning `(T, error)` become `Except`-valued functions whose
error constructors mirror the distinct `fmt.Errorf` sites of the source.

All mutation of the registry map happens under one `sync.Mutex` write lock in
the source, so every concurrent execution of `GetOrLoadServer` linearizes to
a sequential ordering of the calls; the registry model below is the
linearized per-call body, and N concurrent calls are modelled as N sequential
calls in an arbitrary order.
-/

set_option autoImplicit false

namespace LazyMcp

mutual

/-- A JSON value, as consumed by `encoding/json` unmarshaling in `loadNode`
and by the `any`-typed MCP request arguments in `server.go`.  Objects keep
their fields in document order. -/
inductive JValue where
  | null
  | bool (b : Bool)
  | num (n : Int)
  | str (s : String)
  | arr (elems : JArray)
  | obj (fields : JObject)
deriving DecidableEq, Repr

/-- A JSON array (a `[]interface{}` in the Go source). -/
inductive JArray where
  | nil
  | cons (head : JValue) (tail : JArray)
deriving DecidableEq, Repr

/-- A JSON object (a `map[string]interface{}` in the Go source). -/
inductive JObject where
  | nil
  | cons (key : String) (value : JValue) (tail : JObject)
deriving DecidableEq, Repr

end

/-- First-match lookup in a JSON object; the embedding of Go map indexing
on a `map[string]interface{}` (keys of an unmarshaled JSON object are
unique, so first-match lookup agrees with Go map lookup). -/
def JObject.lookup : JObject → String → Option JValue
  | .nil, _ => none
  | .cons k v rest, key => if k = key then some v else JObject.lookup rest key

/-- First-match association-list lookup; the embedding of Go map indexing
(`m[k]`, with the `ok` flag given by `Option`). -/
def alookup {α : Type} : List (String × α) → String → Option α
  | [], _ => none
  | (k, v) :: rest, key => if k = key then some v else alookup rest key

/-- Character-level split on `'.'`; the embedding of Go
`strings.Split(s, ".")` restricted to its use sites.  Like Go's `Split`, it
returns `[""]` on the empty input and never returns an empty list. -/
def splitCharsOnDot : List Char → List (List Char)
  | [] => [[]]
  | c :: rest =>
    let r := splitCharsOnDot rest
    if c = '.' then [] :: r
    else
      match r with
      | [] => [[c]]
      | h :: t => (c :: h) :: t

/-- Embedding of `strings.Split(s, ".")`. -/
def splitDot (s : String) : List String :=
  (splitCharsOnDot s.data).map (fun cs => String.mk cs)

/-- Embedding of `strings.Join(parts, ".")`. -/
def joinDot : List String → String
  | [] => ""
  | [s] => s
  | s :: rest => s ++ "." ++ joinDot rest

/-- Embedding of `strings.HasPrefix`. -/
def goStartsWith (s pre : String) : Bool :=
  pre.data.isPrefixOf s.data

/-- Embedding of `strings.TrimPrefix`. -/
def goTrimStart (s pre : String) : String :=
  if goStartsWith s pre then String.mk (s.data.drop pre.data.length) else s

/-- Embedding of `strings.Trim(s, ".")`: strip leading and trailing `'.'`. -/
def trimDots (s : String) : String :=
  String.mk (((s.data.dropWhile (fun c => c = '.')).reverse.dropWhile
    (fun c => c = '.')).reverse)

/-- Embedding of `strings.Contains(s, ".")` at the call sites where the
substring is the single character `"."`. -/
def containsDot (s : String) : Bool :=
  s.data.any (fun c => c = '.')

/-- Embedding of `ToolDefinition` (hierarchy.go lines 28–33).  `inputSchema` is the
opaque JSON-Schema object; `none` when absent or not an object. -/
structure ToolDefinition where
  description : String
  mapsTo : String
  server : String
  inputSchema : Option JObject
deriving DecidableEq, Repr

/-- Embedding of `MCPServerRef` (hierarchy.go lines 43–52). -/
structure MCPServerRef where
  name : String
  type : String
  command : String
  args : List String
  env : List (String × String)
  url : String
  headers : List (String × String)
  toolMappings : List (String × String)
deriving DecidableEq, Repr

/-- Embedding of `HierarchyNode` (hierarchy.go lines 21–25). -/
structure HierarchyNode where
  overview : String
  tools : List (String × ToolDefinition)
  mcpServer : Option MCPServerRef
deriving DecidableEq, Repr

/-- The hierarchy store: the `nodes` map of the `Hierarchy` struct
(hierarchy.go lines 80–84). -/
structure Hierarchy where
  nodes : List (String × HierarchyNode)
deriving DecidableEq, Repr

/-- The store produced by `LoadHierarchy` (hierarchy.go lines 87–163):
the root node is registered under both `""` and `"/"` (lines 99–100) and
every walked node file appends its `(hierarchyKey, node)` entry. -/
def LoadHierarchyStore (rootNode : HierarchyNode)
    (walked : List (String × HierarchyNode)) : Hierarchy :=
  { nodes := [("", rootNode), ("/", rootNode)] ++ walked }

/-- The error results of `ResolveToolPath` (hierarchy.go lines 348 and 394),
one constructor per `fmt.Errorf` site, each carrying the offending path. -/
inductive ResolveError where
  | invalidToolPath (path : String)
  | toolNotFound (path : String)
deriving DecidableEq, Repr

/-- One iteration of Strategy 2 of `ResolveToolPath` at index `i`
(hierarchy.go lines 370–389): for `i = 0` the category is the root and the
looked-up tool name is `parts[0]`; for `i ≥ 1` the category is
`strings.Join(parts[:i], ".")` and the looked-up tool name is the last
part. -/
def resolveTryAt (h : Hierarchy) (parts : List String) (i : Nat) :
    Option ToolDefinition :=
  let categoryPath := if i = 0 then "" else joinDot (parts.take i)
  let toolName := if i = 0 then parts.headD "" else parts.getLastD ""
  match alookup h.nodes categoryPath with
  | some node => alookup node.tools toolName
  | none => none

/-- Strategy 2's descending loop `for i := len(parts)-1; i >= 0; i--`
(hierarchy.go line 370): `resolveStrategy2From h parts (n+1)` tries index
`n`, then `n-1`, …, then `0`, returning the first hit. -/
def resolveStrategy2From (h : Hierarchy) (parts : List String) :
    Nat → Option ToolDefinition
  | 0 => none
  | n + 1 =>
    match resolveTryAt h parts n with
    | some t => some t
    | none => resolveStrategy2From h parts n

/-- Embedding of `ResolveToolPath` (hierarchy.go lines 341–399).  Strategy 1: the whole
path names a node holding a tool named like the last part.  Strategy 2: the
progressive prefix loop.  On success the returned server name is the
tool-level `Server` field (line 398). -/
def ResolveToolPath (h : Hierarchy) (toolPath : String) :
    Except ResolveError (ToolDefinition × String) :=
  let parts := splitDot toolPath
  if parts.length = 0 then .error (.invalidToolPath toolPath)
  else
    let lastPart := parts.getLastD ""
    let found1 : Option ToolDefinition :=
      match alookup h.nodes toolPath with
      | some node => alookup node.tools lastPart
      | none => none
    let foundTool : Option ToolDefinition :=
      match found1 with
      | some t => some t
      | none => resolveStrategy2From h parts parts.length
    match foundTool with
    | some tool => .ok (tool, tool.server)
    | none => .error (.toolNotFound toolPath)

/-! ## Node loading (`loadNode`, hierarchy.go lines 166–208) -/

/-- Go `encoding/json` unmarshaling of a `string`-typed struct field: absent or
`null` gives the zero value, a string gives the string, anything else is an
unmarshal type error. -/
def jsonStringField (fields : JObject) (key : String) : Except String String :=
  match fields.lookup key with
  | none => .ok ""
  | some .null => .ok ""
  | some (.str s) => .ok s
  | some _ => .error ("json: cannot unmarshal field " ++ key)

/-- Go `encoding/json` unmarshaling of a `[]string` element list. -/
def jsonStringElems : JArray → Except String (List String)
  | .nil => .ok []
  | .cons (.str s) rest => (jsonStringElems rest).map (fun l => s :: l)
  | .cons _ _ => .error "json: cannot unmarshal array element into string"

/-- Go `encoding/json` unmarshaling of a `[]string`-typed struct field. -/
def jsonStringArrayField (fields : JObject) (key : String) :
    Except String (List String) :=
  match fields.lookup key with
  | none => .ok []
  | some .null => .ok []
  | some (.arr a) => jsonStringElems a
  | some _ => .error ("json: cannot unmarshal field " ++ key)

/-- Go `encoding/json` unmarshaling of a `map[string]string` body. -/
def jsonStringPairs : JObject → Except String (List (String × String))
  | .nil => .ok []
  | .cons k (.str s) rest => (jsonStringPairs rest).map (fun l => (k, s) :: l)
  | .cons _ _ _ => .error "json: cannot unmarshal object value into string"

/-- Go `encoding/json` unmarshaling of a `map[string]string`-typed struct
field. -/
def jsonStringMapField (fields : JObject) (key : String) :
    Except String (List (String × String)) :=
  match fields.lookup key with
  | none => .ok []
  | some .null => .ok []
  | some (.obj o) => jsonStringPairs o
  | some _ => .error ("json: cannot unmarshal field " ++ key)

/-- Go `encoding/json` unmarshaling of an `MCPServerRef` object
(hierarchy.go lines 43–52). -/
def unmarshalMCPServerRef (fields : JObject) : Except String MCPServerRef := do
  let name ← jsonStringField fields "name"
  let type ← jsonStringField fields "type"
  let command ← jsonStringField fields "command"
  let args ← jsonStringArrayField fields "args"
  let env ← jsonStringMapField fields "env"
  let url ← jsonStringField fields "url"
  let headers ← jsonStringMapField fields "headers"
  let toolMappings ← jsonStringMapField fields "tool_mappings"
  .ok { name, type, command, args, env, url, headers, toolMappings }

/-- Embedding of `HierarchyNodeData` (hierarchy.go lines 36–40): the flexible unmarshal
target whose `Tools` field is `map[string]interface{}`. -/
structure HierarchyNodeData where
  overview : String
  tools : JObject
  mcpServer : Option MCPServerRef
deriving DecidableEq, Repr

/-- Embedding of `json.Unmarshal(data, &nodeData)` in `loadNode` (hierarchy.go line
173).  A `null` document yields the zero value; a non-object document is an
unmarshal error; within an object, `overview` must be a string, `tools` an
object, and `mcp_server` an `MCPServerRef` object (absent and `null` give
zero values). -/
def unmarshalHierarchyNodeData (data : JValue) :
    Except String HierarchyNodeData :=
  match data with
  | .null => .ok { overview := "", tools := .nil, mcpServer := none }
  | .obj fields => do
    let overview ← jsonStringField fields "overview"
    let tools ←
      match fields.lookup "tools" with
      | none => Except.ok JObject.nil
      | some .null => Except.ok JObject.nil
      | some (.obj t) => Except.ok t
      | some _ => Except.error "json: cannot unmarshal field tools"
    let mcpServer ←
      match fields.lookup "mcp_server" with
      | none => Except.ok (Option.none (α := MCPServerRef))
      | some .null => Except.ok (Option.none (α := MCPServerRef))
      | some (.obj m) => (unmarshalMCPServerRef m).map Option.some
      | some _ => Except.error "json: cannot unmarshal field mcp_server"
    .ok { overview, tools, mcpServer }
  | _ => .error "json: cannot unmarshal value into HierarchyNodeData"

/-- The tool-parsing loop of `loadNode` (hierarchy.go lines 185–205): each
tool value that is an object becomes a `ToolDefinition` through Go type
assertions (a mismatched field silently keeps its default); `maps_to`
defaults to the tool's own name; any non-object tool value is skipped. -/
def parseTools : JObject → List (String × ToolDefinition)
  | .nil => []
  | .cons toolName (.obj toolMap) rest =>
    (toolName,
      { description :=
          match toolMap.lookup "description" with
          | some (.str d) => d
          | _ => ""
        mapsTo :=
          match toolMap.lookup "maps_to" with
          | some (.str m) => m
          | _ => toolName
        server :=
          match toolMap.lookup "server" with
          | some (.str s) => s
          | _ => ""
        inputSchema :=
          match toolMap.lookup "inputSchema" with
          | some (.obj schema) => some schema
          | _ => none }) :: parseTools rest
  | .cons _ _ rest => parseTools rest

/-- Embedding of `loadNode` (hierarchy.go lines 166–208), applied to the parsed JSON
document of one node file (file I/O is outside the model). -/
def loadNode (data : JValue) : Except String HierarchyNode := do
  let nodeData ← unmarshalHierarchyNodeData data
  .ok { overview := nodeData.overview, tools := parseTools nodeData.tools,
        mcpServer := nodeData.mcpServer }

/-! ## Category navigation (`HandleGetToolsInCategory`,
hierarchy.go lines 219–337) -/

/-- Go map assignment `m[k] = v` on an association list: replace the
existing binding or append a new one. -/
def upsert {α : Type} : List (String × α) → String → α → List (String × α)
  | [], k, v => [(k, v)]
  | (k1, v1) :: rest, k, v =>
    if k1 = k then (k, v) :: rest else (k1, v1) :: upsert rest k v

/-- The per-child annotation stored into the `children` map
(hierarchy.go lines 279–282 and 298–302): a leaf child is annotated with
`is_leaf: true` and its tool count; a branch child with its overview (the
`overview` key is present only when the overview is non-empty). -/
inductive ChildInfo where
  | leaf (toolCount : Nat)
  | branch (overview : Option String)
deriving DecidableEq, Repr

/-- A `{description, tool_path}` entry of the `tools` map
(hierarchy.go lines 290–293 and 323–326). -/
structure ToolInfo where
  description : String
  toolPath : String
deriving DecidableEq, Repr

/-- The response object of `HandleGetToolsInCategory`
(hierarchy.go lines 236–334).  `overview` is present only when non-empty
(line 240); an empty `children` list models the absent `children` key
(line 307). -/
structure CategoryView where
  path : String
  overview : Option String
  children : List (String × ChildInfo)
  tools : List (String × ToolInfo)
deriving DecidableEq, Repr

/-- The accumulator of the child-scanning loop
(hierarchy.go lines 245–305). -/
structure ChildScan where
  children : List (String × ChildInfo)
  allChildrenAreLeaves : Bool
  aggregatedTools : List (String × ToolInfo)
deriving DecidableEq, Repr

/-- The direct-child test of the scanning loop (hierarchy.go lines
255–273): at the root every dot-free key is a direct child named by the key
itself; elsewhere a key extending `path ++ "."` by one dot-free remainder is
a direct child named by the remainder. -/
def directChildName (path nodePath : String) : Option String :=
  if path = "" then
    if containsDot nodePath then none else some nodePath
  else
    if goStartsWith nodePath (path ++ ".") then
      let remainder := goTrimStart nodePath (path ++ ".")
      if containsDot remainder then none else some remainder
    else none

/-- One iteration of the child-scanning loop (hierarchy.go lines 249–305):
skip the current path and the `""` key; classify every direct child as leaf
(recording its tools into the aggregation map, keyed by tool name, with the
child's own path as `tool_path`) or as branch (clearing
`allChildrenAreLeaves`). -/
def scanStep (path : String) (acc : ChildScan)
    (entry : String × HierarchyNode) : ChildScan :=
  let nodePath := entry.1
  if nodePath = path ∨ nodePath = "" then acc
  else
    match directChildName path nodePath with
    | none => acc
    | some childName =>
      let childNode := entry.2
      if childNode.tools.length > 0 then
        { children := upsert acc.children childName (.leaf childNode.tools.length)
          allChildrenAreLeaves := acc.allChildrenAreLeaves
          aggregatedTools := childNode.tools.foldl
            (fun ag t => upsert ag t.1
              { description := t.2.description, toolPath := nodePath })
            acc.aggregatedTools }
      else
        { children := upsert acc.children childName
            (.branch (if childNode.overview = "" then none
                      else some childNode.overview))
          allChildrenAreLeaves := false
          aggregatedTools := acc.aggregatedTools }

/-- The whole child scan, iterating over the store's entries. -/
def scanChildren (nodes : List (String × HierarchyNode)) (path : String) :
    ChildScan :=
  nodes.foldl (scanStep path)
    { children := [], allChildrenAreLeaves := true, aggregatedTools := [] }

/-- Embedding of `HandleGetToolsInCategory` (hierarchy.go lines 219–337): normalize the
path (`"/"` → `""`, trim dots), look up the node, scan the children, and
build the `tools` map — direct tools when the node has any (lines 312–328),
the aggregated child tools when all children are leaves and aggregation is
non-empty (lines 329–331), the empty map otherwise (lines 332–334). -/
def HandleGetToolsInCategory (h : Hierarchy) (path0 : String) :
    Except String CategoryView :=
  let path1 := if path0 = "/" then "" else path0
  let path := trimDots path1
  match alookup h.nodes path with
  | none => .error ("category not found: " ++ path)
  | some node =>
    let scan := scanChildren h.nodes path
    let tools : List (String × ToolInfo) :=
      if node.tools.length > 0 then
        node.tools.map (fun t =>
          (t.1, { description := t.2.description
                  toolPath := if path = "" then t.1 else path ++ "." ++ t.1 }))
      else if scan.allChildrenAreLeaves ∧ scan.aggregatedTools.length > 0 then
        scan.aggregatedTools
      else []
    .ok { path := path
          overview := if node.overview = "" then none else some node.overview
          children := scan.children
          tools := tools }

/-! ## Server registry (`ServerRegistry` / `GetOrLoadServer`,
hierarchy.go lines 445–521)

All registry mutation happens under the single `r.mu` write lock, so any
concurrent execution linearizes to a sequence of the per-call bodies; the
double-checked read before the write lock collapses, in the linearized
body, into the single re-check under the lock.  The downstream MCP client
library is abstracted by a `ServerEnv`: a deterministic environment giving,
for each construction, the outcome of `client.NewMCPClient`,
`NeedManualStart`, `Start`, `Initialize` and `NeedPing`.  Each call's
side-effect footprint (constructions, starts, initializations, ping tasks
spawned) is recorded in an `InitLog`. -/

/-- Embedding of `config.MCPClientConfigV2`, restricted to the fields the core reads. -/
structure MCPClientConfig where
  transportType : String
  command : String
  args : List String
  url : String
deriving DecidableEq, Repr

/-- The deterministic downstream environment for one registry: the server
config table handed to `NewServerRegistry` plus the behavior of the client
adapter, with `C` the type of client handles. -/
structure ServerEnv (C : Type) where
  serverConfigs : List (String × MCPClientConfig)
  newMCPClient : String → MCPClientConfig → Except String C
  needManualStart : C → Bool
  startClient : C → Except String Unit
  initializeClient : C → Except String Unit
  needPing : C → Bool

/-- The registry state: the `clients` map of `ServerRegistry`
(hierarchy.go line 446). -/
structure ServerRegistry (C : Type) where
  clients : List (String × C)
deriving DecidableEq, Repr

/-- First-match lookup in the clients map. -/
def lookupClient {C : Type} : List (String × C) → String → Option C
  | [], _ => none
  | (k, v) :: rest, key => if k = key then some v else lookupClient rest key

/-- The error results of `GetOrLoadServer`, one constructor per
`fmt.Errorf` site (hierarchy.go lines 482, 488, 495, 507). -/
inductive RegError where
  | configNotFound (name : String)
  | createFailed (e : String)
  | startFailed (e : String)
  | initFailed (e : String)
deriving DecidableEq, Repr

/-- Side-effect counters of one or more `GetOrLoadServer` calls. -/
structure InitLog where
  constructAttempts : Nat
  startAttempts : Nat
  initAttempts : Nat
  pingStarted : Nat
deriving DecidableEq, Repr

def InitLog.zero : InitLog :=
  { constructAttempts := 0, startAttempts := 0, initAttempts := 0,
    pingStarted := 0 }

def InitLog.add (a b : InitLog) : InitLog :=
  { constructAttempts := a.constructAttempts + b.constructAttempts
    startAttempts := a.startAttempts + b.startAttempts
    initAttempts := a.initAttempts + b.initAttempts
    pingStarted := a.pingStarted + b.pingStarted }

/-- Embedding of `GetOrLoadServer` (hierarchy.go lines 461–521), linearized body: cache
hit returns the stored handle; otherwise look up the config, construct the
client, `Start` it when the transport needs a manual start, `Initialize`
it, store it, and spawn the ping task when the transport needs pings.
Every error path returns before the store at line 513, leaving the clients
map untouched. -/
def GetOrLoadServer {C : Type} (env : ServerEnv C) (r : ServerRegistry C)
    (serverName : String) :
    Except RegError C × ServerRegistry C × InitLog :=
  match lookupClient r.clients serverName with
  | some c => (.ok c, r, .zero)
  | none =>
    match alookup env.serverConfigs serverName with
    | none => (.error (.configNotFound serverName), r, .zero)
    | some cfg =>
      match env.newMCPClient serverName cfg with
      | .error e =>
        (.error (.createFailed e), r,
          { InitLog.zero with constructAttempts := 1 })
      | .ok mcpClient =>
        let startAttempts := if env.needManualStart mcpClient then 1 else 0
        let startRes : Except String Unit :=
          if env.needManualStart mcpClient then env.startClient mcpClient
          else .ok ()
        match startRes with
        | .error e =>
          (.error (.startFailed e), r,
            { constructAttempts := 1, startAttempts := startAttempts,
              initAttempts := 0, pingStarted := 0 })
        | .ok _ =>
          match env.initializeClient mcpClient with
          | .error e =>
            (.error (.initFailed e), r,
              { constructAttempts := 1, startAttempts := startAttempts,
                initAttempts := 1, pingStarted := 0 })
          | .ok _ =>
            (.ok mcpClient,
              { clients := r.clients ++ [(serverName, mcpClient)] },
              { constructAttempts := 1, startAttempts := startAttempts,
                initAttempts := 1,
                pingStarted := if env.needPing mcpClient then 1 else 0 })

/-- Runs `n` linearized same-name `GetOrLoadServer` calls, threading the registry
state and summing the side-effect logs; the model of `n` concurrent calls
for one server name (the write lock serializes them). -/
def runSame {C : Type} (env : ServerEnv C) (r : ServerRegistry C)
    (serverName : String) :
    Nat → List (Except RegError C) × ServerRegistry C × InitLog
  | 0 => ([], r, .zero)
  | n + 1 =>
    let step := GetOrLoadServer env r serverName
    let rest := runSame env step.2.1 serverName n
    (step.1 :: rest.1, rest.2.1, step.2.2.add rest.2.2)

/-! ## Tool execution (`HandleExecuteTool`, hierarchy.go lines 402–442,
and the `execute_tool` handler, server.go lines 189–209) -/

/-- A cancellation context, reduced to its deadline: `none` when the caller
set no deadline, `some d` for a deadline `d` seconds from now. -/
abbrev Ctx : Type := Option Nat

/-- Embedding of `context.WithTimeout(ctx, d)` on the deadline view: the derived context
carries the nearer of the caller's deadline and the new timeout — it never
replaces a nearer caller deadline. -/
def withTimeout (ctx : Ctx) (d : Nat) : Ctx :=
  match ctx with
  | none => some d
  | some t => some (min t d)

/-- The error results of `HandleExecuteTool` and of the `execute_tool`
handler, one constructor per error site (hierarchy.go lines 406, 410, 416,
438; server.go line 205). -/
inductive ExecError where
  | resolve (e : ResolveError)
  | noServerConfigured (toolPath : String)
  | clientLoadFailed (e : RegError)
  | callFailed (toolName : String) (e : String)
  | toolPathRequired
deriving DecidableEq, Repr

/-- The environment of `HandleExecuteTool`: the registry environment plus
the downstream `CallTool`, abstracted as a deterministic function of the
client handle, tool name, arguments and context, with `R` the type of
downstream results. -/
structure ExecEnv (C R : Type) where
  server : ServerEnv C
  callTool : C → String → JObject → Ctx → Except String R

/-- Embedding of `HandleExecuteTool` (hierarchy.go lines 402–442): resolve the path,
reject an empty server name, obtain a client from the registry, compute the
downstream tool name (`maps_to`, falling back to the last path segment when
empty, lines 420–423), derive a 15-second timeout context from the caller's
context (line 428), call the tool and relay the result. -/
def HandleExecuteTool {C R : Type} (env : ExecEnv C R) (h : Hierarchy)
    (ctx : Ctx) (r : ServerRegistry C) (toolPath : String)
    (arguments : JObject) :
    Except ExecError R × ServerRegistry C × InitLog :=
  match ResolveToolPath h toolPath with
  | .error e => (.error (.resolve e), r, .zero)
  | .ok (toolDef, serverName) =>
    if serverName = "" then (.error (.noServerConfigured toolPath), r, .zero)
    else
      match GetOrLoadServer env.server r serverName with
      | (.error e, r1, log) => (.error (.clientLoadFailed e), r1, log)
      | (.ok mcpClient, r1, log) =>
        let actualToolName :=
          if toolDef.mapsTo = "" then (splitDot toolPath).getLastD ""
          else toolDef.mapsTo
        let toolCtx := withTimeout ctx 15
        match env.callTool mcpClient actualToolName arguments toolCtx with
        | .error e => (.error (.callFailed actualToolName e), r1, log)
        | .ok result => (.ok result, r1, log)

/-- The argument parsing of the `execute_tool` handler (server.go lines
190–202): start from `tool_path = ""` and empty arguments; when the raw
request arguments are a JSON object, take `tool_path` from its string
field of that name and `arguments` from its object field of that name;
any missing or mistyped field keeps its default. -/
def parseExecuteArgs (rawArgs : Option JValue) : String × JObject :=
  match rawArgs with
  | some (.obj m) =>
    (match m.lookup "tool_path" with
     | some (.str s) => s
     | _ => "",
     match m.lookup "arguments" with
     | some (.obj a) => a
     | _ => .nil)
  | _ => ("", .nil)

/-- The `execute_tool` handler body (server.go lines 189–209): parse the
raw arguments, reject an empty `tool_path` before touching the hierarchy or
the registry (line 204–206), then dispatch to `HandleExecuteTool`. -/
def executeToolHandler {C R : Type} (env : ExecEnv C R) (h : Hierarchy)
    (ctx : Ctx) (r : ServerRegistry C) (rawArgs : Option JValue) :
    Except ExecError R × ServerRegistry C × InitLog :=
  let parsed := parseExecuteArgs rawArgs
  if parsed.1 = "" then (.error .toolPathRequired, r, .zero)
  else HandleExecuteTool env h ctx r parsed.1 parsed.2

/-! ## Concrete instances used by the claim theorems and witnesses -/

deriving instance DecidableEq for Except

/-- A tool named `find_symbol`, attached directly to the root below. -/
def fsTool : ToolDefinition :=
  { description := "find a symbol", mapsTo := "find_symbol",
    server := "serena", inputSchema := none }

/-- A root node carrying the tool `find_symbol` directly. -/
def rootWithFindSymbol : HierarchyNode :=
  { overview := "root", tools := [("find_symbol", fsTool)], mcpServer := none }

/-- A store whose root node carries the tool `find_symbol`. -/
def hFindSymbol : Hierarchy := LoadHierarchyStore rootWithFindSymbol []

/-- A branch node with the given overview and no tools. -/
def branchNode (o : String) : HierarchyNode :=
  { overview := o, tools := [], mcpServer := none }

/-- A leaf node holding the single tool `t1`. -/
def leafAlpha : HierarchyNode :=
  { overview := ""
    tools := [("t1", { description := "d1", mapsTo := "t1", server := "s",
                       inputSchema := none })]
    mcpServer := none }

/-- Root discovery store of spec scenario 1: a root with branch children
`coding_tools` and `web_tools` and no direct tools. -/
def hRootDiscovery : Hierarchy :=
  LoadHierarchyStore (branchNode "root overview")
    [("coding_tools", branchNode "ct"), ("web_tools", branchNode "wt")]

/-- A store whose root has no direct tools and exactly one real direct
child, the leaf `alpha`. -/
def hRootLeaf : Hierarchy :=
  LoadHierarchyStore (branchNode "root overview") [("alpha", leafAlpha)]

/-- The JSON document of a category node that declares `mcp_server` with
name `srv`. -/
def ancestorJson : JValue :=
  .obj (.cons "overview" (.str "category overview")
    (.cons "mcp_server"
      (.obj (.cons "name" (.str "srv")
        (.cons "type" (.str "stdio")
          (.cons "command" (.str "srv-cmd") .nil)))) .nil))

/-- The JSON document of a leaf node whose tool `t` declares no `server`
field of its own. -/
def leafJson : JValue :=
  .obj (.cons "tools"
    (.obj (.cons "t" (.obj (.cons "description" (.str "d") .nil)) .nil)) .nil)

/-- A fallback node for unwrapping `loadNode` results on known-good
documents. -/
def emptyNode : HierarchyNode := { overview := "", tools := [], mcpServer := none }

/-- The category node loaded from `ancestorJson`. -/
def catNode : HierarchyNode := ((loadNode ancestorJson).toOption).getD emptyNode

/-- The leaf node loaded from `leafJson`. -/
def leafNodeC5 : HierarchyNode := ((loadNode leafJson).toOption).getD emptyNode

/-- The tool `t` as `loadNode` materializes it from `leafJson`: `maps_to`
defaulted to the tool name and `server` left empty. -/
def tToolC5 : ToolDefinition :=
  { description := "d", mapsTo := "t", server := "", inputSchema := none }

/-- A store, as loaded from disk, in which the ancestor `cat` declares
`mcp_server srv` and the leaf `cat.leaf` holds a tool without a `server`
field. -/
def hInherit : Hierarchy :=
  LoadHierarchyStore (branchNode "root")
    [("cat", catNode), ("cat.leaf", leafNodeC5)]

/-- A stdio client config used by the registry instances. -/
def stdioCfg : MCPClientConfig :=
  { transportType := "stdio", command := "serena", args := [], url := "" }

/-- A registry environment whose downstream `Initialize` handshake always
fails; client handles are numbered by construction order. -/
def envInitFail : ServerEnv Nat :=
  { serverConfigs := [("serena", stdioCfg)]
    newMCPClient := fun _ _ => .ok 1
    needManualStart := fun _ => false
    startClient := fun _ => .ok ()
    initializeClient := fun _ => .error "connection refused"
    needPing := fun _ => false }

/-- A registry environment whose initialization pipeline succeeds, yielding
the client handle `7`. -/
def envOk : ServerEnv Nat :=
  { serverConfigs := [("serena", stdioCfg)]
    newMCPClient := fun _ _ => .ok 7
    needManualStart := fun _ => false
    startClient := fun _ => .ok ()
    initializeClient := fun _ => .ok ()
    needPing := fun _ => false }

/-- A registry environment whose client construction always fails. -/
def envCreateFail : ServerEnv Nat :=
  { serverConfigs := [("serena", stdioCfg)]
    newMCPClient := fun _ _ => .error "no such command"
    needManualStart := fun _ => false
    startClient := fun _ => .ok ()
    initializeClient := fun _ => .ok ()
    needPing := fun _ => false }

/-- A registry environment with an empty server-config table. -/
def envNoConfigs : ServerEnv Nat :=
  { serverConfigs := []
    newMCPClient := fun _ _ => .ok 7
    needManualStart := fun _ => false
    startClient := fun _ => .ok ()
    initializeClient := fun _ => .ok ()
    needPing := fun _ => false }

/-- The empty registry. -/
def emptyRegistry : ServerRegistry Nat := { clients := [] }

/-- An execution environment over `envOk` whose downstream `CallTool`
echoes the tool name, the arguments and the context it received, so that
theorems can observe exactly what was passed downstream. -/
def echoExecEnv : ExecEnv Nat (String × JObject × Ctx) :=
  { server := envOk
    callTool := fun _ name args ctx => .ok (name, args, ctx) }

/-- An execution environment over the empty config table. -/
def echoExecEnvNoConfigs : ExecEnv Nat (String × JObject × Ctx) :=
  { server := envNoConfigs
    callTool := fun _ name args ctx => .ok (name, args, ctx) }

/-- A tool whose `maps_to` names a different downstream tool. -/
def t2Tool : ToolDefinition :=
  { description := "d2", mapsTo := "real_t2", server := "serena",
    inputSchema := none }

/-- A tool with an empty `maps_to`, exercising the last-segment fallback. -/
def t3Tool : ToolDefinition :=
  { description := "d3", mapsTo := "", server := "serena",
    inputSchema := none }

/-- A tool whose `server` is absent from every config table below. -/
def t4Tool : ToolDefinition :=
  { description := "d4", mapsTo := "t4", server := "ghost",
    inputSchema := none }

/-- A leaf store for the execution claims: `cat.leaf` holds `t2`
(`maps_to = "real_t2"`, `server = "serena"`), `cat.leaf2` holds `t3`
(empty `maps_to`), and `cat.ghost` holds `t4` (unresolvable server). -/
def hExec : Hierarchy :=
  LoadHierarchyStore (branchNode "root")
    [("cat", branchNode "cat")
     , ("cat.leaf",
        { overview := "", tools := [("t2", t2Tool)], mcpServer := none })
     , ("cat.leaf2",
        { overview := "", tools := [("t3", t3Tool)], mcpServer := none })
     , ("cat.ghost",
        { overview := "", tools := [("t4", t4Tool)], mcpServer := none })]

/-- A sample arguments object passed through `execute_tool`. -/
def sampleArgs : JObject := .cons "x" (.num 42) .nil

/-! ## Helper lemmas -/

/-- Splitting a character list on `'.'` never produces the empty list. -/
theorem splitCharsOnDot_ne_nil (cs : List Char) : splitCharsOnDot cs ≠ [] := by
  induction cs with
  | nil => simp [splitCharsOnDot]
  | cons c rest ih =>
    unfold splitCharsOnDot
    by_cases hc : c = '.'
    · simp [hc]
    · simp only [hc, if_false]
      cases h : splitCharsOnDot rest with
      | nil => exact absurd h ih
      | cons x xs => simp

/-- Splitting any string on `"."` yields at least one part, as with Go's
`strings.Split`. -/
theorem splitDot_ne_nil (s : String) : splitDot s ≠ [] := by
  simp only [splitDot, ne_eq, List.map_eq_nil_iff]
  exact splitCharsOnDot_ne_nil s.data

/-- Appending a fresh binding to a clients map makes it visible under its
key. -/
theorem lookupClient_append_self {C : Type} (xs : List (String × C))
    (name : String) (c : C) (h : lookupClient xs name = none) :
    lookupClient (xs ++ [(name, c)]) name = some c := by
  induction xs with
  | nil => simp [lookupClient]
  | cons p rest ih =>
    obtain ⟨k, v⟩ := p
    simp only [List.cons_append, lookupClient] at h ⊢
    by_cases hk : k = name
    · simp [hk] at h
    · simp only [hk, if_false] at h ⊢
      exact ih h

/-- A cache hit returns the stored handle, leaves the registry untouched
and performs no construction, start, initialization or ping spawn. -/
theorem getOrLoadServer_cached {C : Type} (env : ServerEnv C)
    (r : ServerRegistry C) (name : String) (c : C)
    (h : lookupClient r.clients name = some c) :
    GetOrLoadServer env r name = (.ok c, r, .zero) := by
  unfold GetOrLoadServer
  rw [h]

/-- Summing a zero side-effect log is the identity. -/
theorem InitLog.add_zero (a : InitLog) : a.add .zero = a := rfl

/-- Any number of calls against a registry that already caches the handle
return that handle and leave every counter at zero. -/
theorem runSame_cached {C : Type} (env : ServerEnv C) (r : ServerRegistry C)
    (name : String) (c : C) (n : Nat)
    (h : lookupClient r.clients name = some c) :
    runSame env r name n = (List.replicate n (.ok c), r, .zero) := by
  induction n with
  | zero => simp [runSame]
  | succ k ih =>
    unfold runSame
    rw [getOrLoadServer_cached env r name c h]
    simp [ih, InitLog.add, InitLog.zero, List.replicate_succ]

/-- A first call for an absent name with a succeeding pipeline constructs,
starts (when needed), initializes and stores the client, and spawns the
ping task when needed. -/
theorem getOrLoadServer_first (C : Type) (env : ServerEnv C)
    (r : ServerRegistry C) (name : String) (cfg : MCPClientConfig) (c : C)
    (habsent : lookupClient r.clients name = none)
    (hcfg : alookup env.serverConfigs name = some cfg)
    (hnew : env.newMCPClient name cfg = .ok c)
    (hstart : env.needManualStart c = true → env.startClient c = .ok ())
    (hinit : env.initializeClient c = .ok ()) :
    GetOrLoadServer env r name =
      (.ok c, { clients := r.clients ++ [(name, c)] },
        { constructAttempts := 1
          startAttempts := if env.needManualStart c then 1 else 0
          initAttempts := 1
          pingStarted := if env.needPing c then 1 else 0 }) := by
  by_cases hms : env.needManualStart c = true
  · simp [GetOrLoadServer, habsent, hcfg, hnew, hms, hstart hms, hinit]
  · simp [GetOrLoadServer, habsent, hcfg, hnew, hms, hinit]

/-- Every entry of the clients map after a `GetOrLoadServer` call either
predates the call or belongs to a client whose `Initialize` handshake
succeeded: the map never holds a partially initialized entry. -/
theorem getOrLoadServer_entries_initialized (C : Type) (env2 : ServerEnv C)
    (r2 : ServerRegistry C) (nm : String) (p : String × C)
    (hp : p ∈ ((GetOrLoadServer env2 r2 nm).2.1).clients) :
    p ∈ r2.clients ∨ env2.initializeClient p.2 = .ok () := by
  unfold GetOrLoadServer at hp
  cases hlc : lookupClient r2.clients nm with
  | some c => rw [hlc] at hp; simp only [] at hp; exact Or.inl hp
  | none =>
    rw [hlc] at hp; simp only [] at hp
    cases hcfg : alookup env2.serverConfigs nm with
    | none => rw [hcfg] at hp; simp only [] at hp; exact Or.inl hp
    | some cfg =>
      rw [hcfg] at hp; simp only [] at hp
      cases hnew : env2.newMCPClient nm cfg with
      | error e => rw [hnew] at hp; simp only [] at hp; exact Or.inl hp
      | ok mc =>
        rw [hnew] at hp; simp only [] at hp
        cases hst : (if env2.needManualStart mc = true then env2.startClient mc
            else Except.ok ()) with
        | error e => rw [hst] at hp; simp only [] at hp; exact Or.inl hp
        | ok u =>
          rw [hst] at hp; simp only [] at hp
          cases hin : env2.initializeClient mc with
          | error e => rw [hin] at hp; simp only [] at hp; exact Or.inl hp
          | ok u2 =>
            rw [hin] at hp; simp only [] at hp
            rcases List.mem_append.mp hp with h1 | h2
            · exact Or.inl h1
            · rw [List.mem_singleton] at h2
              subst h2
              right
              rw [hin]

/-! ## Claim theorems -/

/-- Claim C10. `ResolveToolPath` is total over all input strings and its
"invalid tool path" branch is unreachable: splitting any string on `"."`
yields at least one part, so for every input (the empty string included)
the function returns either a found tool together with its server name or
the "tool not found" error carrying the input path — never the
invalid-path error (and, being a total Lean function, never a panic). -/
theorem resolveToolPath_total (h : Hierarchy) (p : String) :
    (∃ t s, ResolveToolPath h p = .ok (t, s)) ∨
      ResolveToolPath h p = .error (.toolNotFound p) := by
  have hne : ¬ ((splitDot p).length = 0) := by
    simpa [List.length_eq_zero] using splitDot_ne_nil p
  unfold ResolveToolPath
  simp only [hne, if_false]
  cases hft : (match (match alookup h.nodes p with
      | some node => alookup node.tools ((splitDot p).getLastD "")
      | none => none) with
    | some t => some t
    | none => resolveStrategy2From h (splitDot p) (splitDot p).length) with
  | some tool => exact Or.inl ⟨tool, tool.server, rfl⟩
  | none => exact Or.inr rfl

/-- Claim C1. Evaluation of `ResolveToolPath` at the failing inputs: the
store's root node contains a tool named `find_symbol`, yet resolving
`"missing.find_symbol"` — whose last segment is exactly `find_symbol` —
fails with `tool not found`, because at the root prefix (loop index 0) the
code looks up the *first* segment `missing` instead of the last segment.
Dually, `"find_symbol.extra"` resolves to the root's `find_symbol` tool
even though no node holds a tool named `extra`, the path's last segment.
This contradicts the claimed policy (and the function's own comment) that
the tool name looked up at every prefix, the root prefix included, is the
path's last segment. -/
theorem resolveToolPath_root_prefix_uses_first_segment :
    alookup hFindSymbol.nodes "" = some rootWithFindSymbol ∧
    alookup rootWithFindSymbol.tools "find_symbol" = some fsTool ∧
    ResolveToolPath hFindSymbol "missing.find_symbol" =
      .error (.toolNotFound "missing.find_symbol") ∧
    ResolveToolPath hFindSymbol "find_symbol.extra" = .ok (fsTool, "serena") := by
  decide

/-- Claim C4. Evaluation of `HandleGetToolsInCategory` at the root-discovery
scenario: on a store, as `LoadHierarchy` builds it, whose root has exactly
the children `coding_tools` and `web_tools`, the view's `children` field
lists *three* entries — the `"/"` alias of the root itself (a dot-free key
of the store) is reported as an extra branch child — instead of exactly the
two child segments the claim requires. -/
theorem getToolsInCategory_root_children_include_alias :
    HandleGetToolsInCategory hRootDiscovery "" =
      .ok { path := ""
            overview := some "root overview"
            children := [("/", .branch (some "root overview")),
                         ("coding_tools", .branch (some "ct")),
                         ("web_tools", .branch (some "wt"))]
            tools := [] } := by
  decide

/-- Claim C3. Evaluation of `HandleGetToolsInCategory` at the failing input:
the root has no direct tools and its only real direct child is the leaf
`alpha` (one tool), so by the claim the view's `tools` field should
aggregate `alpha`'s tool `t1` under tool path `alpha`; the code instead
returns the empty `tools` map, because the `"/"` alias of the root is
scanned as a direct child of the root and, having no tools, counts as a
branch child, clearing `allChildrenAreLeaves`.  The aggregation map the
scan had built — and then discarded — is exactly the claimed result. -/
theorem getToolsInCategory_root_aggregation_suppressed :
    leafAlpha.tools.length = 1 ∧
    HandleGetToolsInCategory hRootLeaf "" =
      .ok { path := ""
            overview := some "root overview"
            children := [("/", .branch (some "root overview")),
                         ("alpha", .leaf 1)]
            tools := [] } ∧
    (scanChildren hRootLeaf.nodes "").aggregatedTools =
      [("t1", { description := "d1", toolPath := "alpha" })] := by
  decide

/-- Claim C5, counterexample. In a store loaded by `loadNode` where the
ancestor node `cat` declares `mcp_server` with name `srv` and the tool `t`
of the leaf `cat.leaf` has no `server` field of its own, resolving
`cat.leaf.t` returns the empty server name — not the nearest ancestor's
`srv`: the loader does not populate child tools' `server` from the ancestor
and resolution does not consult ancestors. -/
theorem resolveToolPath_ignores_ancestor_server :
    catNode.mcpServer.map MCPServerRef.name = some "srv" ∧
    alookup hInherit.nodes "cat.leaf" = some leafNodeC5 ∧
    alookup leafNodeC5.tools "t" = some tToolC5 ∧
    tToolC5.server = "" ∧
    ResolveToolPath hInherit "cat.leaf.t" = .ok (tToolC5, "") := by
  decide

/-- Claim C5, amended. The server name returned by `ResolveToolPath` is
always exactly the resolved tool's own `server` field: ancestor `mcp_server`
declarations are neither consulted at resolution time nor copied onto child
tools at load time, so a tool without its own `server` resolves with the
empty server name even under an ancestor that declares `mcp_server`. -/
theorem resolveToolPath_server_is_tool_field (h : Hierarchy) (p : String)
    (t : ToolDefinition) (s : String)
    (hres : ResolveToolPath h p = .ok (t, s)) : s = t.server := by
  have hne : ¬ ((splitDot p).length = 0) := by
    simpa [List.length_eq_zero] using splitDot_ne_nil p
  simp only [ResolveToolPath, hne, if_false] at hres
  cases hft : (match (match alookup h.nodes p with
      | some node => alookup node.tools ((splitDot p).getLastD "")
      | none => none) with
    | some t0 => some t0
    | none => resolveStrategy2From h (splitDot p) (splitDot p).length) with
  | some tool =>
    rw [hft] at hres
    simp only [Except.ok.injEq, Prod.mk.injEq] at hres
    obtain ⟨h1, h2⟩ := hres
    rw [← h1, ← h2]
  | none =>
    rw [hft] at hres
    exact absurd hres (by simp)

/-- Witness for the amended C5 theorem at the concrete store `hInherit`. -/
theorem resolveToolPath_server_is_tool_field_witness :
    ResolveToolPath hInherit "cat.leaf.t" = .ok (tToolC5, "") ∧
      "" = tToolC5.server :=
  ⟨by decide,
   resolveToolPath_server_is_tool_field hInherit "cat.leaf.t" tToolC5 ""
     (by decide)⟩

/-- Claim C2, counterexample. Two linearized concurrent `GetOrLoadServer`
calls for the same name against a downstream whose `Initialize` handshake
fails run the construction and initialization *twice*, not exactly once:
the first caller's error is not cached, so the second caller re-attempts
the full pipeline, contradicting the claim that the downstream client's
construction and initialization run exactly once with all callers observing
the same error from the single attempted initialization. -/
theorem getOrLoadServer_concurrent_init_retries :
    (runSame envInitFail emptyRegistry "serena" 2).2.2.initAttempts = 2 ∧
    (runSame envInitFail emptyRegistry "serena" 2).2.2.constructAttempts = 2 ∧
    (runSame envInitFail emptyRegistry "serena" 2).1 =
      [.error (.initFailed "connection refused"),
       .error (.initFailed "connection refused")] := by
  decide

/-- Claim C2, amended. For every server name whose initialization pipeline
succeeds, `n + 1` concurrent `GetOrLoadServer` calls for that name
(linearized by the registry's write lock) run the downstream client's
construction and initialization exactly once; every caller observes the
same cached client handle; and the registry map only ever holds fully
initialized entries, so a second caller can only observe a Ready entry.
When initialization fails the error is not cached and later callers
re-attempt the pipeline (see the counterexample). -/
theorem getOrLoadServer_once_per_name (C : Type) (env : ServerEnv C)
    (r : ServerRegistry C) (name : String) (cfg : MCPClientConfig) (c : C)
    (n : Nat)
    (habsent : lookupClient r.clients name = none)
    (hcfg : alookup env.serverConfigs name = some cfg)
    (hnew : env.newMCPClient name cfg = .ok c)
    (hstart : env.needManualStart c = true → env.startClient c = .ok ())
    (hinit : env.initializeClient c = .ok ()) :
    (runSame env r name (n + 1)).1 = List.replicate (n + 1) (.ok c) ∧
    (runSame env r name (n + 1)).2.2.constructAttempts = 1 ∧
    (runSame env r name (n + 1)).2.2.initAttempts = 1 ∧
    (runSame env r name (n + 1)).2.1 = { clients := r.clients ++ [(name, c)] } ∧
    (∀ (env2 : ServerEnv C) (r2 : ServerRegistry C) (nm : String)
        (p : String × C),
        p ∈ ((GetOrLoadServer env2 r2 nm).2.1).clients →
          p ∈ r2.clients ∨ env2.initializeClient p.2 = .ok ()) := by
  have hfirst := getOrLoadServer_first C env r name cfg c habsent hcfg hnew
    hstart hinit
  have hlook : lookupClient (r.clients ++ [(name, c)]) name = some c :=
    lookupClient_append_self r.clients name c habsent
  have hrest := runSame_cached env { clients := r.clients ++ [(name, c)] }
    name c n hlook
  have hrun : runSame env r name (n + 1) =
      (.ok c :: List.replicate n (.ok c),
        { clients := r.clients ++ [(name, c)] },
        InitLog.add
          { constructAttempts := 1
            startAttempts := if env.needManualStart c then 1 else 0
            initAttempts := 1
            pingStarted := if env.needPing c then 1 else 0 } .zero) := by
    unfold runSame
    rw [hfirst]
    simp only []
    rw [hrest]
  refine ⟨?_, ?_, ?_, ?_, getOrLoadServer_entries_initialized C⟩
  · rw [hrun, List.replicate_succ]
  · rw [hrun]
    rfl
  · rw [hrun]
    rfl
  · rw [hrun]

/-- Witness for the amended C2 theorem: three concurrent calls against
`envOk` yield one construction, one initialization, three identical `ok`
results and the single cached entry. -/
theorem getOrLoadServer_once_per_name_witness :
    (runSame envOk emptyRegistry "serena" 3).1 = List.replicate 3 (.ok 7) ∧
    (runSame envOk emptyRegistry "serena" 3).2.2.constructAttempts = 1 ∧
    (runSame envOk emptyRegistry "serena" 3).2.2.initAttempts = 1 ∧
    (runSame envOk emptyRegistry "serena" 3).2.1 =
      { clients := [("serena", 7)] } :=
  have h := getOrLoadServer_once_per_name Nat envOk emptyRegistry "serena"
    stdioCfg 7 2 (by decide) (by decide) (by decide) (by decide) (by decide)
  ⟨h.1, h.2.1, h.2.2.1, h.2.2.2.1⟩

/-- Claim C7. If any stage of lazy initialization fails (config lookup,
client construction, `Start`, or `Initialize`), `GetOrLoadServer` returns
the error with the registry map left unchanged — the failed name stays
absent, no ping task is started — and a subsequent call for the same name
runs the whole function again from scratch on the unchanged state (there is
no cached error to observe). -/
theorem getOrLoadServer_failure_leaves_registry (C : Type) (env : ServerEnv C)
    (r : ServerRegistry C) (name : String) (e : RegError)
    (r1 : ServerRegistry C) (log : InitLog)
    (h : GetOrLoadServer env r name = (.error e, r1, log)) :
    r1 = r ∧ log.pingStarted = 0 ∧
    (lookupClient r.clients name = none →
      lookupClient r1.clients name = none) ∧
    GetOrLoadServer env r1 name = GetOrLoadServer env r name := by
  unfold GetOrLoadServer at h
  cases hlc : lookupClient r.clients name with
  | some c =>
    rw [hlc] at h; simp only [] at h
    simp at h
  | none =>
    rw [hlc] at h; simp only [] at h
    cases hcfg : alookup env.serverConfigs name with
    | none =>
      rw [hcfg] at h; simp only [] at h
      simp only [Prod.mk.injEq, Except.error.injEq] at h
      obtain ⟨h1, h2, h3⟩ := h
      subst h2; subst h3
      exact ⟨rfl, rfl, fun _ => hlc, rfl⟩
    | some cfg =>
      rw [hcfg] at h; simp only [] at h
      cases hnew : env.newMCPClient name cfg with
      | error e2 =>
        rw [hnew] at h; simp only [] at h
        simp only [Prod.mk.injEq, Except.error.injEq] at h
        obtain ⟨h1, h2, h3⟩ := h
        subst h2; subst h3
        exact ⟨rfl, rfl, fun _ => hlc, rfl⟩
      | ok mc =>
        rw [hnew] at h; simp only [] at h
        cases hst : (if env.needManualStart mc = true then env.startClient mc
            else Except.ok ()) with
        | error e2 =>
          rw [hst] at h; simp only [] at h
          simp only [Prod.mk.injEq, Except.error.injEq] at h
          obtain ⟨h1, h2, h3⟩ := h
          subst h2; subst h3
          exact ⟨rfl, rfl, fun _ => hlc, rfl⟩
        | ok u =>
          rw [hst] at h; simp only [] at h
          cases hin : env.initializeClient mc with
          | error e2 =>
            rw [hin] at h; simp only [] at h
            simp only [Prod.mk.injEq, Except.error.injEq] at h
            obtain ⟨h1, h2, h3⟩ := h
            subst h2; subst h3
            exact ⟨rfl, rfl, fun _ => hlc, rfl⟩
          | ok u2 =>
            rw [hin] at h; simp only [] at h
            simp at h

/-- Witness for C7: a failing client construction surfaces the error,
leaves the empty registry empty, starts no ping task, and a retry behaves
identically. -/
theorem getOrLoadServer_failure_leaves_registry_witness :
    emptyRegistry = emptyRegistry ∧
    ({ constructAttempts := 1, startAttempts := 0, initAttempts := 0,
       pingStarted := 0 } : InitLog).pingStarted = 0 ∧
    (lookupClient emptyRegistry.clients "serena" = none →
      lookupClient emptyRegistry.clients "serena" = none) ∧
    GetOrLoadServer envCreateFail emptyRegistry "serena" =
      GetOrLoadServer envCreateFail emptyRegistry "serena" :=
  getOrLoadServer_failure_leaves_registry Nat envCreateFail emptyRegistry
    "serena" (.createFailed "no such command") emptyRegistry
    { constructAttempts := 1, startAttempts := 0, initAttempts := 0,
      pingStarted := 0 } (by decide)

/-- Claim C6. For every successfully resolved tool with a non-empty server
name whose client loads, `HandleExecuteTool` invokes the downstream
`CallTool` with the tool's `maps_to` as name (falling back to the path's
last segment when `maps_to` is empty), the caller-supplied arguments object
passed through unmodified, and the 15-second timeout context *derived* from
the caller's context (the effective deadline is the minimum of the caller's
deadline and 15, never a plain replacement), and it relays a successful
downstream result unchanged. -/
theorem handleExecuteTool_composes (C R : Type) (env : ExecEnv C R)
    (h : Hierarchy) (ctx : Ctx) (r : ServerRegistry C) (p : String)
    (args : JObject) (t : ToolDefinition) (s : String) (c : C)
    (r1 : ServerRegistry C) (log : InitLog)
    (hres : ResolveToolPath h p = .ok (t, s)) (hs : ¬ s = "")
    (hload : GetOrLoadServer env.server r s = (.ok c, r1, log)) :
    HandleExecuteTool env h ctx r p args =
      ((match env.callTool c
          (if t.mapsTo = "" then (splitDot p).getLastD "" else t.mapsTo)
          args (withTimeout ctx 15) with
        | .error e =>
          .error (.callFailed
            (if t.mapsTo = "" then (splitDot p).getLastD "" else t.mapsTo) e)
        | .ok result => .ok result), r1, log) ∧
    withTimeout none 15 = some 15 ∧
    (∀ d : Nat, withTimeout (some d) 15 = some (min d 15)) ∧
    (∀ res : R, env.callTool c
        (if t.mapsTo = "" then (splitDot p).getLastD "" else t.mapsTo)
        args (withTimeout ctx 15) = .ok res →
      (HandleExecuteTool env h ctx r p args).1 = .ok res) := by
  unfold HandleExecuteTool
  rw [hres]
  simp only []
  rw [if_neg hs, hload]
  simp only []
  refine ⟨?_, rfl, fun d => rfl, ?_⟩
  · cases hct : env.callTool c
        (if t.mapsTo = "" then (splitDot p).getLastD "" else t.mapsTo)
        args (withTimeout ctx 15) with
    | error e => rfl
    | ok result => rfl
  · intro res hres2
    rw [hres2]

/-- Witness for C6 at a concrete store and echoing environment: the
downstream call observes the mapped name `real_t2`, the verbatim
arguments, and the derived deadline `min 10 15 = 10`. -/
theorem handleExecuteTool_composes_witness :
    HandleExecuteTool echoExecEnv hExec (some 10) emptyRegistry
        "cat.leaf.t2" sampleArgs =
      (.ok ("real_t2", sampleArgs, some 10),
        { clients := [("serena", 7)] },
        { constructAttempts := 1, startAttempts := 0, initAttempts := 1,
          pingStarted := 0 }) :=
  Eq.trans
    (handleExecuteTool_composes Nat (String × JObject × Ctx) echoExecEnv
      hExec (some 10) emptyRegistry "cat.leaf.t2" sampleArgs t2Tool "serena"
      7 { clients := [("serena", 7)] }
      { constructAttempts := 1, startAttempts := 0, initAttempts := 1,
        pingStarted := 0 }
      (by decide) (by decide) (by decide)).1
    (by decide)

/-- Claim C8. A tool whose server is empty or unresolvable fails only at
execution time, never at load time: (1) `loadNode` accepts every node
document whose tools are arbitrary objects — whatever their `server`
fields, present, empty or unresolvable — and keeps all of them; (2) a tool
that resolves with an empty server name makes `HandleExecuteTool` fail with
the no-server-configured error, registry untouched; (3) a tool that
resolves with a non-empty server name absent from the config table makes
`HandleExecuteTool` fail with the config-not-found
(`ServerConfigMissing`-class) error, registry untouched. -/
theorem serverErrors_surface_at_execution :
    (∀ (ov : String) (tfields : JObject),
        loadNode (.obj (.cons "overview" (.str ov)
            (.cons "tools" (.obj tfields) .nil))) =
          .ok { overview := ov, tools := parseTools tfields,
                mcpServer := none }) ∧
    (∀ (C R : Type) (env : ExecEnv C R) (h : Hierarchy) (ctx : Ctx)
        (r : ServerRegistry C) (p : String) (args : JObject)
        (t : ToolDefinition),
        ResolveToolPath h p = .ok (t, "") →
          HandleExecuteTool env h ctx r p args =
            (.error (.noServerConfigured p), r, .zero)) ∧
    (∀ (C R : Type) (env : ExecEnv C R) (h : Hierarchy) (ctx : Ctx)
        (r : ServerRegistry C) (p : String) (args : JObject)
        (t : ToolDefinition) (s : String),
        ResolveToolPath h p = .ok (t, s) → ¬ s = "" →
          lookupClient r.clients s = none →
          alookup env.server.serverConfigs s = none →
          HandleExecuteTool env h ctx r p args =
            (.error (.clientLoadFailed (.configNotFound s)), r, .zero)) := by
  refine ⟨?_, ?_, ?_⟩
  · intro ov tfields
    rfl
  · intro C R env h ctx r p args t hres
    unfold HandleExecuteTool
    rw [hres]
    simp only []
    simp
  · intro C R env h ctx r p args t s hres hs habs hcfg
    have hreg : GetOrLoadServer env.server r s =
        (.error (.configNotFound s), r, .zero) := by
      unfold GetOrLoadServer
      rw [habs]
      simp only []
      rw [hcfg]
    unfold HandleExecuteTool
    rw [hres]
    simp only []
    rw [if_neg hs, hreg]

/-- Witness for C8: a tool document with an unresolvable `server` loads
fine; executing the server-less tool of `hInherit` and the
`ghost`-server tool of `hExec` fails at execution time with the claimed
error classes. -/
theorem serverErrors_surface_at_execution_witness :
    loadNode (.obj (.cons "overview" (.str "x")
        (.cons "tools" (.obj (.cons "t4"
          (.obj (.cons "server" (.str "ghost") .nil)) .nil)) .nil))) =
      .ok { overview := "x"
            tools := parseTools (.cons "t4"
              (.obj (.cons "server" (.str "ghost") .nil)) .nil)
            mcpServer := none } ∧
    HandleExecuteTool echoExecEnv hInherit none emptyRegistry "cat.leaf.t"
        sampleArgs =
      (.error (.noServerConfigured "cat.leaf.t"), emptyRegistry, .zero) ∧
    HandleExecuteTool echoExecEnv hExec none emptyRegistry "cat.ghost.t4"
        sampleArgs =
      (.error (.clientLoadFailed (.configNotFound "ghost")), emptyRegistry,
        .zero) :=
  have h := serverErrors_surface_at_execution
  ⟨h.1 "x" (.cons "t4" (.obj (.cons "server" (.str "ghost") .nil)) .nil),
   h.2.1 Nat (String × JObject × Ctx) echoExecEnv hInherit none
     emptyRegistry "cat.leaf.t" sampleArgs tToolC5 (by decide),
   h.2.2 Nat (String × JObject × Ctx) echoExecEnv hExec none emptyRegistry
     "cat.ghost.t4" sampleArgs t4Tool "ghost" (by decide) (by decide)
     (by decide) (by decide)⟩

/-- Claim C9. The `execute_tool` handler's argument parsing is defensive:
(1) a missing `arguments` field is replaced by the empty object; (2) a
mistyped (non-object) `arguments` value is replaced by the empty object;
(3) a non-object top-level arguments payload parses to the empty tool path
and empty object; (4) whenever the parsed `tool_path` is empty — missing,
mistyped or explicitly `""` — the handler rejects the request with the
invalid-arguments error before touching the hierarchy or the registry: the
result is the same for every hierarchy and every registry state, the state
comes back unchanged, and no registry effect is logged. -/
theorem executeTool_defensive_args :
    (∀ m : JObject, m.lookup "arguments" = none →
        (parseExecuteArgs (some (.obj m))).2 = .nil) ∧
    (∀ (m : JObject) (v : JValue), m.lookup "arguments" = some v →
        (∀ a : JObject, v ≠ .obj a) →
        (parseExecuteArgs (some (.obj m))).2 = .nil) ∧
    (∀ rawArgs : Option JValue, (∀ m : JObject, rawArgs ≠ some (.obj m)) →
        parseExecuteArgs rawArgs = ("", .nil)) ∧
    (∀ (C R : Type) (env : ExecEnv C R) (h : Hierarchy) (ctx : Ctx)
        (r : ServerRegistry C) (rawArgs : Option JValue),
        (parseExecuteArgs rawArgs).1 = "" →
          executeToolHandler env h ctx r rawArgs =
            (.error .toolPathRequired, r, .zero)) := by
  refine ⟨?_, ?_, ?_, ?_⟩
  · intro m hm
    unfold parseExecuteArgs
    simp only []
    rw [hm]
  · intro m v hm hv
    unfold parseExecuteArgs
    simp only []
    rw [hm]
    cases v with
    | null => rfl
    | bool b => rfl
    | num n => rfl
    | str s => rfl
    | arr a => rfl
    | obj a => exact absurd rfl (hv a)
  · intro rawArgs hraw
    cases rawArgs with
    | none => rfl
    | some v =>
      cases v with
      | null => rfl
      | bool b => rfl
      | num n => rfl
      | str s => rfl
      | arr a => rfl
      | obj a => exact absurd rfl (hraw a)
  · intro C R env h ctx r rawArgs hempty
    unfold executeToolHandler
    simp only []
    rw [if_pos hempty]

/-- Witness for C9: a missing `arguments`, a string-typed `arguments`, a
string payload, and the literal `execute_tool("", {})` request, which is
rejected with the invalid-arguments error without touching the registry. -/
theorem executeTool_defensive_args_witness :
    (parseExecuteArgs (some (.obj (.cons "tool_path" (.str "hello") .nil)))).2 =
      .nil ∧
    (parseExecuteArgs (some (.obj (.cons "tool_path" (.str "x")
        (.cons "arguments" (.str "oops") .nil))))).2 = .nil ∧
    parseExecuteArgs (some (.str "zap")) = ("", .nil) ∧
    executeToolHandler echoExecEnv hExec none emptyRegistry
        (some (.obj (.cons "tool_path" (.str "")
          (.cons "arguments" (.obj .nil) .nil)))) =
      (.error .toolPathRequired, emptyRegistry, .zero) :=
  have h := executeTool_defensive_args
  ⟨h.1 (.cons "tool_path" (.str "hello") .nil) (by decide),
   h.2.1 (.cons "tool_path" (.str "x") (.cons "arguments" (.str "oops") .nil))
     (.str "oops") (by decide) (fun a hc => JValue.noConfusion hc),
   h.2.2.1 (some (.str "zap")) (fun m hc => by cases hc),
   h.2.2.2 Nat (String × JObject × Ctx) echoExecEnv hExec none emptyRegistry
     (some (.obj (.cons "tool_path" (.str "")
       (.cons "arguments" (.obj .nil) .nil)))) (by decide)⟩

end LazyMcp
